import Mathlib

/-!
Verification of the two utility scripts of this repository:
`tools/convert_dataset.py` (a dataset-format converter) and
`tools/fetch-magicians.py` (a forum archiver).

Python strings are modelled as lists of characters, Python `None` and
missing dictionary fields as `Option`, and the network as explicit
response functions; the fetch loops are given explicit fuel where the
Python loop count is not syntactically bounded.
-/

/-- Python strings, modelled as lists of characters. -/
abbrev PyStr := List Char

/-- Python `str.removeprefix p`: drop `p` when it is a prefix of the
string, otherwise return the string unchanged. -/
def removePre (p s : PyStr) : PyStr :=
  if p.isPrefixOf s then s.drop p.length else s

/-- Python `str.zfill w`: left-fill with ASCII `0` to length `w`; a
leading sign character stays in front of the inserted zeros; strings of
length at least `w` are returned unchanged. -/
def zfill (w : Nat) (s : PyStr) : PyStr :=
  match s with
  | [] => List.replicate w '0'
  | c :: r =>
      if c = '+' ∨ c = '-' then c :: (List.replicate (w - (r.length + 1)) '0' ++ r)
      else List.replicate (w - (r.length + 1)) '0' ++ (c :: r)

/-- Source `pad_hex32` (convert_dataset.py, lines 12-15): remove a
`0x` prefix, then a `0X` prefix, zero-fill to 64 digits, re-prefix. -/
def pad_hex32 (val : PyStr) : PyStr :=
  '0' :: 'x' :: zfill 64 (removePre ['0', 'X'] (removePre ['0', 'x'] val))

/-- Source `clean_hex` (convert_dataset.py, lines 17-24): canonical zero
for the four zero literals, otherwise remove a `0x` prefix, then a `0X`
prefix, then all leading `0` characters, re-prefix. -/
def clean_hex (val : PyStr) : PyStr :=
  if val = [] ∨ val = ['0', 'x'] ∨ val = ['0', 'x', '0'] ∨ val = ['0', 'x', '0', '0'] then
    ['0', 'x', '0']
  else
    let v := (removePre ['0', 'X'] (removePre ['0', 'x'] val)).dropWhile (fun c => c == '0')
    if v = [] then ['0', 'x', '0'] else '0' :: 'x' :: v

/-- Removal of a single leading hex prefix, whichever of `0x` or `0X` is
present, as the specification's wording describes it. -/
def stripHexPre1 : PyStr → PyStr
  | c :: d :: r => if c = '0' ∧ (d = 'x' ∨ d = 'X') then r else c :: d :: r
  | s => s

/-- The `clean_hex` algorithm exactly as claimed: one single prefix
strip, then a leading-zero strip, then re-prefixing, with the four zero
literals special-cased. -/
def clean_hex_claimed (val : PyStr) : PyStr :=
  if val = [] ∨ val = ['0', 'x'] ∨ val = ['0', 'x', '0'] ∨ val = ['0', 'x', '0', '0'] then
    ['0', 'x', '0']
  else
    let v := (stripHexPre1 val).dropWhile (fun c => c == '0')
    if v = [] then ['0', 'x', '0'] else '0' :: 'x' :: v

/-- The `pad_hex32` algorithm exactly as claimed: one single prefix
strip, plain left-padding with zeros to 64 digits, re-prefixing. -/
def pad_hex32_claimed (val : PyStr) : PyStr :=
  '0' :: 'x' :: (List.replicate (64 - (stripHexPre1 val).length) '0' ++ stripHexPre1 val)

/-- Removal of one leading lowercase `0x` prefix. -/
def stripLowerPre : PyStr → PyStr
  | c :: d :: r => if c = '0' ∧ d = 'x' then r else c :: d :: r
  | s => s

/-- Removal of one leading uppercase `0X` prefix. -/
def stripUpperPre : PyStr → PyStr
  | c :: d :: r => if c = '0' ∧ d = 'X' then r else c :: d :: r
  | s => s

/-- Left-filling with zeros to at least 64 characters, keeping a leading
sign character in front of the fill. -/
def padTo64 : PyStr → PyStr
  | [] => List.replicate 64 '0'
  | c :: r =>
      if c = '+' ∨ c = '-' then c :: (List.replicate (63 - r.length) '0' ++ r)
      else List.replicate (64 - (r.length + 1)) '0' ++ (c :: r)

/-- The `clean_hex` algorithm as amended: strip a `0x` prefix, then a
`0X` prefix from the result, then leading zeros, then re-prefix. -/
def clean_hex_amended (val : PyStr) : PyStr :=
  if val = [] ∨ val = ['0', 'x'] ∨ val = ['0', 'x', '0'] ∨ val = ['0', 'x', '0', '0'] then
    ['0', 'x', '0']
  else
    let v := (stripUpperPre (stripLowerPre val)).dropWhile (fun c => c == '0')
    if v = [] then ['0', 'x', '0'] else '0' :: 'x' :: v

/-- The `pad_hex32` algorithm as amended: strip a `0x` prefix, then a
`0X` prefix from the result, sign-aware zero-fill to at least 64
characters, re-prefix. -/
def pad_hex32_amended (val : PyStr) : PyStr :=
  '0' :: 'x' :: padTo64 (stripUpperPre (stripLowerPre val))

/-- Test for a string beginning with the two characters `0X`. -/
def startsWith0X : PyStr → Bool
  | c :: d :: _ => c == '0' && d == 'X'
  | _ => false

lemma removePre_nil2 (a b : Char) : removePre [a, b] [] = [] := by
  simp [removePre, List.isPrefixOf]

lemma removePre_one (a b c : Char) : removePre [a, b] [c] = [c] := by
  simp [removePre, List.isPrefixOf]

lemma removePre_cons2 (a b c d : Char) (r : PyStr) :
    removePre [a, b] (c :: d :: r) = if c = a ∧ d = b then r else c :: d :: r := by
  by_cases h1 : c = a
  · by_cases h2 : d = b
    · subst h1; subst h2; simp [removePre, List.isPrefixOf]
    · simp [removePre, List.isPrefixOf, h1, h2, Ne.symm h2]
  · simp [removePre, List.isPrefixOf, h1, Ne.symm h1]

lemma removePre_lower (s : PyStr) : removePre ['0', 'x'] s = stripLowerPre s := by
  match s with
  | [] => rw [removePre_nil2]; rfl
  | [c] => rw [removePre_one]; rfl
  | c :: d :: r => rw [removePre_cons2]; simp [stripLowerPre]

lemma removePre_upper (s : PyStr) : removePre ['0', 'X'] s = stripUpperPre s := by
  match s with
  | [] => rw [removePre_nil2]; rfl
  | [c] => rw [removePre_one]; rfl
  | c :: d :: r => rw [removePre_cons2]; simp [stripUpperPre]

lemma zfill_eq_padTo64 (s : PyStr) : zfill 64 s = padTo64 s := by
  cases s with
  | nil => rfl
  | cons c r =>
      have h : 64 - (r.length + 1) = 63 - r.length := by omega
      simp only [zfill, padTo64, h]

lemma zfill_len_ge (w : Nat) (s : PyStr) : w ≤ (zfill w s).length := by
  cases s with
  | nil => simp [zfill]
  | cons c r =>
      by_cases h : c = '+' ∨ c = '-' <;>
        simp [zfill, h, List.length_append] <;> omega

lemma zfill_of_len_ge (w : Nat) (s : PyStr) (h : w ≤ s.length) : zfill w s = s := by
  cases s with
  | nil =>
      have hw : w = 0 := by simpa using h
      subst hw; rfl
  | cons c r =>
      have h0 : w - (r.length + 1) = 0 := by
        simp only [List.length_cons] at h; omega
      by_cases hc : c = '+' ∨ c = '-' <;> simp [zfill, hc, h0]

lemma removePre_upper_id (s : PyStr) (h : startsWith0X s = false) :
    removePre ['0', 'X'] s = s := by
  match s with
  | [] => rw [removePre_nil2]
  | [c] => rw [removePre_one]
  | c :: d :: r =>
      rw [removePre_cons2]
      have hne : ¬(c = '0' ∧ d = 'X') := by
        intro hcd
        simp [startsWith0X, hcd.1, hcd.2] at h
      simp [hne]

/-- C1 counterexample: on the input `"0x0X1"` the source `clean_hex`
removes the lowercase prefix and then also the uppercase prefix of the
remainder, yielding `"0x1"`, while the claimed single-prefix-strip
algorithm yields `"0xX1"`. -/
theorem clean_hex_c1_counterexample :
    clean_hex ['0', 'x', '0', 'X', '1'] = ['0', 'x', '1']
    ∧ clean_hex_claimed ['0', 'x', '0', 'X', '1'] = ['0', 'x', 'X', '1']
    ∧ clean_hex ['0', 'x', '0', 'X', '1'] ≠ clean_hex_claimed ['0', 'x', '0', 'X', '1'] := by
  decide

/-- C1 (amended): `clean_hex` maps each of the four zero literals to
`"0x0"`; on any other input it strips a leading `"0x"` prefix, then a
leading `"0X"` prefix from the result, then all leading zero digits, and
re-prefixes with `"0x"`, returning `"0x0"` when nothing remains after
stripping; in particular `clean_hex "0x0001a0" = "0x1a0"`. -/
theorem clean_hex_c1_amended :
    (∀ v, clean_hex v = clean_hex_amended v)
    ∧ clean_hex [] = ['0', 'x', '0']
    ∧ clean_hex ['0', 'x'] = ['0', 'x', '0']
    ∧ clean_hex ['0', 'x', '0'] = ['0', 'x', '0']
    ∧ clean_hex ['0', 'x', '0', '0'] = ['0', 'x', '0']
    ∧ clean_hex ['0', 'x', '0', '0', '0', '1', 'a', '0'] = ['0', 'x', '1', 'a', '0'] := by
  refine ⟨fun v => ?_, by decide, by decide, by decide, by decide, by decide⟩
  simp only [clean_hex, clean_hex_amended, removePre_lower, removePre_upper]

/-- C2 counterexample: `pad_hex32` is not idempotent at the 63-character
input `"X1⋯1"`, whose padded digit string begins with `"0X"` and is
therefore stripped by a second application; and at `"0x0X1"` the source
`pad_hex32` differs from the claimed single-strip-and-pad algorithm. -/
theorem pad_hex32_c2_counterexample :
    pad_hex32 (pad_hex32 ('X' :: List.replicate 62 '1'))
      ≠ pad_hex32 ('X' :: List.replicate 62 '1')
    ∧ pad_hex32 ['0', 'x', '0', 'X', '1'] ≠ pad_hex32_claimed ['0', 'x', '0', 'X', '1'] := by
  decide

/-- C2 (amended): `pad_hex32` strips a leading `"0x"` prefix, then a
leading `"0X"` prefix from the result, left-fills the remainder with
zeros to at least 64 characters (the fill goes after a leading sign
character), and re-prefixes with `"0x"`; `pad_hex32 "0x1"` is `"0x"`
followed by 63 zeros and a `"1"`; and `pad_hex32` is idempotent on every
input whose padded digit string does not begin with `"0X"`. -/
theorem pad_hex32_c2_amended :
    (∀ v, pad_hex32 v = pad_hex32_amended v)
    ∧ pad_hex32 ['0', 'x', '1'] = ['0', 'x'] ++ List.replicate 63 '0' ++ ['1']
    ∧ ∀ v, startsWith0X ((pad_hex32 v).drop 2) = false →
        pad_hex32 (pad_hex32 v) = pad_hex32 v := by
  refine ⟨fun v => ?_, by decide, fun v h => ?_⟩
  · simp only [pad_hex32, pad_hex32_amended, removePre_lower, removePre_upper, zfill_eq_padTo64]
  · have hz : (pad_hex32 v).drop 2
        = zfill 64 (removePre ['0', 'X'] (removePre ['0', 'x'] v)) := rfl
    rw [hz] at h
    show '0' :: 'x' :: zfill 64 (removePre ['0', 'X'] (removePre ['0', 'x'] (pad_hex32 v)))
        = pad_hex32 v
    have h2 : removePre ['0', 'x'] (pad_hex32 v)
        = zfill 64 (removePre ['0', 'X'] (removePre ['0', 'x'] v)) := by
      show removePre ['0', 'x']
          ('0' :: 'x' :: zfill 64 (removePre ['0', 'X'] (removePre ['0', 'x'] v))) = _
      rw [removePre_cons2]
      simp
    rw [h2, removePre_upper_id _ h, zfill_of_len_ge _ _ (zfill_len_ge _ _)]
    rfl

/-- Witness for the amended C2 theorem at the concrete input `"a"`. -/
theorem pad_hex32_c2_amended_witness :
    startsWith0X ((pad_hex32 ['a']).drop 2) = false
    ∧ pad_hex32 (pad_hex32 ['a']) = pad_hex32 ['a'] :=
  ⟨by decide, pad_hex32_c2_amended.2.2 ['a'] (by decide)⟩

/-- A pre-state account record of the input fixture (convert_dataset.py,
lines 38-53): every field may be missing, storage is a list of key-value
pairs of hex strings. -/
structure Account where
  balance : Option PyStr
  nonce : Option PyStr
  code : Option PyStr
  storage : Option (List (PyStr × PyStr))

/-- An entry of the produced `alloc.json`: the balance key is always
written, the other three keys are optional. -/
structure AllocEntry where
  balance : PyStr
  nonce : Option PyStr
  code : Option PyStr
  storage : Option (List (PyStr × PyStr))

/-- The zero literals recognised for balance and nonce. -/
def bnZeroLits : List PyStr := [[], ['0', 'x'], ['0', 'x', '0'], ['0', 'x', '0', '0']]

/-- The empty literals recognised for code. -/
def codeEmptyLits : List PyStr := [[], ['0', 'x']]

/-- Python `acct.get(k) and acct[k] not in excl`: keep the field value
only when it is present, truthy and not one of the excluded literals. -/
def keepField (v : Option PyStr) (excl : List PyStr) : Option PyStr :=
  match v with
  | none => none
  | some s => if s = [] ∨ s ∈ excl then none else some s

/-- The per-account body of the `convert` alloc loop (convert_dataset.py,
lines 38-54). -/
def convertAccount (a : Account) : AllocEntry :=
  { balance := (keepField a.balance bnZeroLits).getD ['0', 'x', '0']
  , nonce := keepField a.nonce bnZeroLits
  , code := keepField a.code codeEmptyLits
  , storage :=
      match a.storage with
      | none => none
      | some st =>
          if st = [] then none
          else some (st.map (fun kv => (pad_hex32 kv.1, pad_hex32 kv.2))) }

/-- The keys of an alloc entry, in the dictionary insertion order of the
source loop. -/
inductive EntryKey where
  | balance
  | nonce
  | code
  | storage
deriving DecidableEq

/-- The key list of one produced alloc entry. -/
def entryKeys (e : AllocEntry) : List EntryKey :=
  [EntryKey.balance]
    ++ (match e.nonce with | some _ => [EntryKey.nonce] | none => [])
    ++ (match e.code with | some _ => [EntryKey.code] | none => [])
    ++ (match e.storage with | some _ => [EntryKey.storage] | none => [])

/-- The alloc map built by `convert` (convert_dataset.py, lines 37-54):
one entry per pre-state account, keyed by the account's address. -/
def convertAlloc (pre : List (PyStr × Account)) : List (PyStr × AllocEntry) :=
  pre.map (fun p => (p.1, convertAccount p.2))

/-- A sample account used by the amended C3 theorem's witness: balance
missing, nonce equal to the zero literal `"0x0"`. -/
def sampleAccount : Account :=
  { balance := none, nonce := some ['0', 'x', '0'], code := none, storage := none }

/-- C3 counterexample: for an account whose nonce is absent, and likewise
for one whose nonce is the zero literal `"0x0"`, the converted entry has
no nonce key at all, so the nonce field does not default to `"0x0"`. -/
theorem convert_c3_counterexample :
    (convertAccount
        { balance := some ['0', 'x', '5'], nonce := none, code := none, storage := none }).nonce
      = none
    ∧ (convertAccount
        { balance := some ['0', 'x', '5'], nonce := some ['0', 'x', '0'], code := none,
          storage := none }).nonce = none
    ∧ entryKeys (convertAccount
        { balance := some ['0', 'x', '5'], nonce := none, code := none, storage := none })
      = [EntryKey.balance]
    ∧ (convertAccount
        { balance := some ['0', 'x', '5'], nonce := none, code := none, storage := none }).nonce
      ≠ some ['0', 'x', '0'] := by
  decide

/-- C3 (amended): the balance field defaults to `"0x0"` when the source
balance is absent or a recognised zero literal, while the nonce key is
omitted (not defaulted) in those same cases, and code and storage are
omitted when absent. -/
theorem convert_c3_amended (a : Account) :
    ((a.balance = none ∨ ∃ s, a.balance = some s ∧ s ∈ bnZeroLits) →
        (convertAccount a).balance = ['0', 'x', '0'])
    ∧ ((a.nonce = none ∨ ∃ s, a.nonce = some s ∧ s ∈ bnZeroLits) →
        (convertAccount a).nonce = none)
    ∧ (a.code = none → (convertAccount a).code = none)
    ∧ (a.storage = none → (convertAccount a).storage = none) := by
  refine ⟨?_, ?_, ?_, ?_⟩
  · rintro (h | ⟨s, hs, hmem⟩)
    · simp [convertAccount, keepField, h]
    · simp [convertAccount, keepField, hs, hmem]
  · rintro (h | ⟨s, hs, hmem⟩)
    · simp [convertAccount, keepField, h]
    · simp [convertAccount, keepField, hs, hmem]
  · intro h; simp [convertAccount, keepField, h]
  · intro h; simp [convertAccount, h]

/-- Witness for the amended C3 theorem at a concrete account with a
missing balance and a zero-literal nonce. -/
theorem convert_c3_amended_witness :
    (convertAccount sampleAccount).balance = ['0', 'x', '0']
    ∧ (convertAccount sampleAccount).nonce = none
    ∧ (convertAccount sampleAccount).code = none
    ∧ (convertAccount sampleAccount).storage = none :=
  ⟨(convert_c3_amended sampleAccount).1 (Or.inl rfl),
   (convert_c3_amended sampleAccount).2.1 (Or.inr ⟨['0', 'x', '0'], rfl, by decide⟩),
   (convert_c3_amended sampleAccount).2.2.1 rfl,
   (convert_c3_amended sampleAccount).2.2.2 rfl⟩

/-- C4: converting a fixture with a single account that has only a
balance field yields an alloc entry whose key list is exactly
`[balance]`: no code, storage or nonce key is present. -/
theorem convert_c4_balance_only (addr b : PyStr) :
    (convertAlloc
        [(addr, { balance := some b, nonce := none, code := none, storage := none })]).map
      (fun p => entryKeys p.2) = [[EntryKey.balance]] := rfl

/-- C9: `convert` preserves the account set exactly: the produced alloc
has the same address list as the input pre object, one entry per
account, and distinct input addresses stay distinct. -/
theorem convert_c9_preserves_accounts (pre : List (PyStr × Account)) :
    (convertAlloc pre).map Prod.fst = pre.map Prod.fst
    ∧ (convertAlloc pre).length = pre.length
    ∧ ((pre.map Prod.fst).Nodup → ((convertAlloc pre).map Prod.fst).Nodup) := by
  have hmap : (convertAlloc pre).map Prod.fst = pre.map Prod.fst := by
    simp [convertAlloc, List.map_map]
  exact ⟨hmap, by simp [convertAlloc], fun h => by rw [hmap]; exact h⟩

/-- Witness for C9 at a concrete two-account pre object with distinct
addresses. -/
theorem convert_c9_witness :
    ((convertAlloc
        [(['a'], sampleAccount), (['b'], sampleAccount)]).map Prod.fst).Nodup
    ∧ (convertAlloc [(['a'], sampleAccount), (['b'], sampleAccount)]).length = 2 :=
  ⟨(convert_c9_preserves_accounts _).2.2 (by decide),
   ((convert_c9_preserves_accounts _).2.1).trans (by decide)⟩

/-- The result of one HTTP request made by `fetch_json`: a parsed JSON
body (abstracted to a number), an HTTP error with a status code, or a
transient network error (URLError). -/
inductive FetchResult where
  | success : Nat → FetchResult
  | httpError : Nat → FetchResult
  | urlError : FetchResult
deriving DecidableEq

/-- How a call of `fetch_json` ends: a returned JSON value, a returned
`None`, a propagated HTTP error, or a propagated URLError. -/
inductive FetchOutcome where
  | value : Nat → FetchOutcome
  | noData : FetchOutcome
  | raisedHttp : Nat → FetchOutcome
  | raisedUrl : FetchOutcome
deriving DecidableEq

/-- The observable behaviour of one `fetch_json` call: its outcome, the
number of requests issued, and the list of sleep durations. -/
structure FetchTrace where
  outcome : FetchOutcome
  requests : Nat
  sleeps : List Nat
deriving DecidableEq

/-- The attempt loop of `fetch_json` (fetch-magicians.py, lines 33-53):
`remaining` counts the attempts left of `range(3)`, `attempt` is the
current loop index; a 429 response sleeps `2 ^ (attempt + 2)` and
retries, a URLError sleeps 2 and retries only while `attempt < 2`, any
other HTTP error propagates, and an exhausted loop returns `None`. -/
def fetchGo (resp : Nat → FetchResult) : Nat → Nat → Nat → List Nat → FetchTrace
  | 0, _, reqs, sleeps => ⟨FetchOutcome.noData, reqs, sleeps⟩
  | remaining + 1, attempt, reqs, sleeps =>
      match resp attempt with
      | FetchResult.success j => ⟨FetchOutcome.value j, reqs + 1, sleeps⟩
      | FetchResult.httpError c =>
          if c = 429 then
            fetchGo resp remaining (attempt + 1) (reqs + 1) (sleeps ++ [2 ^ (attempt + 2)])
          else ⟨FetchOutcome.raisedHttp c, reqs + 1, sleeps⟩
      | FetchResult.urlError =>
          if attempt < 2 then fetchGo resp remaining (attempt + 1) (reqs + 1) (sleeps ++ [2])
          else ⟨FetchOutcome.raisedUrl, reqs + 1, sleeps⟩

/-- Source `fetch_json` (fetch-magicians.py, lines 30-53), given the
response each attempt would receive. -/
def fetch_json (resp : Nat → FetchResult) : FetchTrace :=
  fetchGo resp 3 0 0 []

/-- C5 counterexample: when all three attempts fail with a URLError the
third one is re-raised, so `fetch_json` propagates the exception instead
of returning `None`. -/
theorem fetch_json_c5_counterexample :
    fetch_json (fun _ => FetchResult.urlError)
      = ⟨FetchOutcome.raisedUrl, 3, [2, 2]⟩
    ∧ (fetch_json (fun _ => FetchResult.urlError)).outcome ≠ FetchOutcome.noData := by
  decide

/-- C5 (amended): when every attempt fails with a URLError the first two
failures are retried after a fixed 2-unit sleep and the third URLError
propagates as an exception; an HTTP error other than 429 propagates
immediately on the first attempt; only the rate-limit path exhausts the
retries into a `None` return. -/
theorem fetch_json_c5_amended (resp : Nat → FetchResult) :
    (resp 0 = FetchResult.urlError → resp 1 = FetchResult.urlError →
      resp 2 = FetchResult.urlError →
        fetch_json resp = ⟨FetchOutcome.raisedUrl, 3, [2, 2]⟩)
    ∧ (∀ c, c ≠ 429 → resp 0 = FetchResult.httpError c →
        fetch_json resp = ⟨FetchOutcome.raisedHttp c, 1, []⟩) := by
  constructor
  · intro h0 h1 h2
    simp [fetch_json, fetchGo, h0, h1, h2]
  · intro c hc h0
    simp [fetch_json, fetchGo, h0, hc]

/-- Witness for the amended C5 theorem: all-URLError responses, and a
first response of HTTP 500. -/
theorem fetch_json_c5_amended_witness :
    fetch_json (fun _ => FetchResult.urlError) = ⟨FetchOutcome.raisedUrl, 3, [2, 2]⟩
    ∧ fetch_json (fun _ => FetchResult.httpError 500)
      = ⟨FetchOutcome.raisedHttp 500, 1, []⟩ :=
  ⟨(fetch_json_c5_amended (fun _ => FetchResult.urlError)).1 rfl rfl rfl,
   (fetch_json_c5_amended (fun _ => FetchResult.httpError 500)).2 500 (by decide) rfl⟩

/-- C6: three consecutive HTTP 429 responses make `fetch_json` issue
exactly 3 requests, sleep `2 ^ (attempt + 2)` units after each (4, 8 and
16), and return `None` without raising. -/
theorem fetch_json_c6_rate_limit (resp : Nat → FetchResult)
    (h0 : resp 0 = FetchResult.httpError 429)
    (h1 : resp 1 = FetchResult.httpError 429)
    (h2 : resp 2 = FetchResult.httpError 429) :
    fetch_json resp = ⟨FetchOutcome.noData, 3, [4, 8, 16]⟩ := by
  simp [fetch_json, fetchGo, h0, h1, h2]

/-- Witness for C6 at the constant 429 response function. -/
theorem fetch_json_c6_rate_limit_witness :
    fetch_json (fun _ => FetchResult.httpError 429)
      = ⟨FetchOutcome.noData, 3, [4, 8, 16]⟩ :=
  fetch_json_c6_rate_limit (fun _ => FetchResult.httpError 429) rfl rfl rfl

/-- One page of a category topic listing: the topics of the page
(abstracted to ids) and whether the server reports a `more_topics_url`.
A whole-page value of `none` models a failed fetch (`not data`). -/
structure CatPage where
  topics : List Nat
  more : Bool
deriving DecidableEq

/-- Python truthiness of the optional integer `limit` argument: `None`
and `0` are falsy. -/
def limitTruthy : Option Nat → Bool
  | some (_ + 1) => true
  | _ => false

/-- The guard `limit and len(topics) >= limit` of the pagination loop. -/
def limitHit (limit : Option Nat) (n : Nat) : Bool :=
  limitTruthy limit && decide (limit.getD 0 ≤ n)

/-- The `while True` pagination loop of `fetch_category_topics`
(fetch-magicians.py, lines 85-102), with explicit fuel bounding the
number of pages visited; `none` means the fuel ran out before the loop
stopped. -/
def catGo (pages : Nat → Option CatPage) (limit : Option Nat) :
    Nat → Nat → List Nat → Option (List Nat)
  | 0, _, _ => none
  | fuel + 1, page, acc =>
      match pages page with
      | none => some acc
      | some pg =>
          if pg.topics = [] then some acc
          else if limitHit limit (acc ++ pg.topics).length then
            some ((acc ++ pg.topics).take (limit.getD 0))
          else if pg.more then catGo pages limit fuel (page + 1) (acc ++ pg.topics)
          else some (acc ++ pg.topics)

/-- Source `fetch_category_topics` (fetch-magicians.py, lines 81-102),
given the listing page each page index would receive. -/
def fetch_category_topics (pages : Nat → Option CatPage) (limit : Option Nat)
    (fuel : Nat) : Option (List Nat) :=
  catGo pages limit fuel 0 []

/-- One search results page, holding the listed topics. -/
structure SearchData where
  topics : List Nat
deriving DecidableEq

/-- Source `search_topics` (fetch-magicians.py, lines 131-140), given
the response of the single search request. -/
def search_topics (d : Option SearchData) (limit : Option Nat) : List Nat :=
  match d with
  | none => []
  | some s => if limitTruthy limit then s.topics.take (limit.getD 0) else s.topics

lemma limitHit_none (m : Nat) : limitHit none m = false := rfl

lemma limitHit_zero (m : Nat) : limitHit (some 0) m = false := rfl

lemma limitHit_pos (n m : Nat) (hn : 0 < n) :
    limitHit (some n) m = decide (n ≤ m) := by
  cases n with
  | zero => omega
  | succ k => simp [limitHit, limitTruthy]

lemma catGo_zero_eq_none (pages : Nat → Option CatPage) :
    ∀ (fuel page : Nat) (acc : List Nat),
      catGo pages (some 0) fuel page acc = catGo pages none fuel page acc := by
  intro fuel
  induction fuel with
  | zero => intro page acc; rfl
  | succ f ih =>
      intro page acc
      simp only [catGo, limitHit_zero, limitHit_none, Bool.false_eq_true, if_false]
      cases pages page with
      | none => rfl
      | some pg =>
          by_cases ht : pg.topics = []
          · simp [ht]
          · by_cases hm : pg.more <;> simp [ht, hm, ih]

/-- C10: a limit of 0 is treated as no limit rather than as a request
for zero items: `fetch_category_topics` with limit 0 behaves exactly
like the unlimited call, and `search_topics` with limit 0 returns the
full untruncated result page. -/
theorem limit_zero_c10_no_limit :
    (∀ (pages : Nat → Option CatPage) (fuel : Nat),
        fetch_category_topics pages (some 0) fuel
          = fetch_category_topics pages none fuel)
    ∧ (∀ d : Option SearchData, search_topics d (some 0) = search_topics d none)
    ∧ (∀ ts : List Nat, search_topics (some ⟨ts⟩) (some 0) = ts) := by
  refine ⟨fun pages fuel => catGo_zero_eq_none pages fuel 0 [], fun d => ?_, fun ts => rfl⟩
  cases d <;> rfl

lemma catGo_none_extends (pages : Nat → Option CatPage) :
    ∀ (fuel page : Nat) (acc L : List Nat),
      catGo pages none fuel page acc = some L → ∃ t, L = acc ++ t := by
  intro fuel
  induction fuel with
  | zero => intro page acc L h; simp [catGo] at h
  | succ f ih =>
      intro page acc L h
      simp only [catGo, limitHit_none, Bool.false_eq_true, if_false] at h
      cases hp : pages page with
      | none =>
          rw [hp] at h
          exact ⟨[], by simpa using (Option.some_injective _ h).symm⟩
      | some pg =>
          rw [hp] at h
          by_cases ht : pg.topics = []
          · simp only [ht, if_true, eq_self_iff_true] at h
            exact ⟨[], by simpa [ht] using (Option.some_injective _ h).symm⟩
          · simp only [ht, if_false] at h
            by_cases hm : pg.more
            · simp only [hm, if_true] at h
              obtain ⟨t, htl⟩ := ih (page + 1) (acc ++ pg.topics) L h
              exact ⟨pg.topics ++ t, by simpa [List.append_assoc] using htl⟩
            · simp only [hm, if_false] at h
              exact ⟨pg.topics, (Option.some_injective _ h).symm⟩

lemma catGo_take (pages : Nat → Option CatPage) (n : Nat) (hn : 0 < n) :
    ∀ (fuel page : Nat) (acc L : List Nat), acc.length < n →
      catGo pages none fuel page acc = some L →
      catGo pages (some n) fuel page acc = some (L.take n) := by
  intro fuel
  induction fuel with
  | zero => intro page acc L _ h; simp [catGo] at h
  | succ f ih =>
      intro page acc L hlen h
      simp only [catGo, limitHit_none, Bool.false_eq_true, if_false] at h
      simp only [catGo]
      cases hp : pages page with
      | none =>
          rw [hp] at h
          have hL : acc = L := Option.some_injective _ h
          subst hL
          rw [List.take_of_length_le (by omega)]
      | some pg =>
          rw [hp] at h
          by_cases ht : pg.topics = []
          · simp only [ht, if_true, eq_self_iff_true] at h ⊢
            have hL : acc = L := Option.some_injective _ h
            subst hL
            rw [List.take_of_length_le (by omega)]
          · simp only [ht, if_false] at h ⊢
            rw [limitHit_pos _ _ hn]
            simp only [Option.getD_some]
            by_cases hhit : n ≤ (acc ++ pg.topics).length
            · rw [if_pos (by simpa using hhit)]
              by_cases hm : pg.more = true
              · rw [if_pos hm] at h
                obtain ⟨t, htl⟩ := catGo_none_extends pages f (page + 1) (acc ++ pg.topics) L h
                subst htl
                rw [List.take_append_of_le_length hhit]
              · rw [if_neg hm] at h
                have hL : acc ++ pg.topics = L := Option.some_injective _ h
                subst hL
                rfl
            · rw [if_neg (by simpa using hhit)]
              by_cases hm : pg.more = true
              · rw [if_pos hm] at h ⊢
                exact ih (page + 1) (acc ++ pg.topics) L (by omega) h
              · rw [if_neg hm] at h
                rw [if_neg hm]
                have hL : acc ++ pg.topics = L := Option.some_injective _ h
                subst hL
                rw [List.take_of_length_le (by omega)]

/-- C7: `fetch_category_topics` stops immediately with an empty result
when the first page has no topics; with a positive limit `n` it returns
exactly the first `n` of the topics the unlimited traversal would
collect, hence a list of length `min n total`; and a first page with
topics but no further-pages signal stops the traversal with exactly that
page's topics. -/
theorem fetch_category_topics_c7 (pages : Nat → Option CatPage) :
    (∀ (limit : Option Nat) (fuel : Nat) (m : Bool), 0 < fuel →
        pages 0 = some ⟨[], m⟩ → fetch_category_topics pages limit fuel = some [])
    ∧ (∀ (n fuel : Nat) (L : List Nat), 0 < n →
        fetch_category_topics pages none fuel = some L →
          fetch_category_topics pages (some n) fuel = some (L.take n)
          ∧ (L.take n).length = min n L.length)
    ∧ (∀ (fuel : Nat) (b : List Nat), 0 < fuel → b ≠ [] →
        pages 0 = some ⟨b, false⟩ →
          fetch_category_topics pages none fuel = some b) := by
  refine ⟨?_, ?_, ?_⟩
  · intro limit fuel m hf hp
    cases fuel with
    | zero => omega
    | succ f => simp [fetch_category_topics, catGo, hp]
  · intro n fuel L hn h
    exact ⟨catGo_take pages n hn fuel 0 [] L (by simpa using hn) h, by simp⟩
  · intro fuel b hf hb hp
    cases fuel with
    | zero => omega
    | succ f => simp [fetch_category_topics, catGo, hp, hb, limitHit_none]

/-- Witness for C7: an empty first page, a two-topic single page with a
limit of 1, and a final page with no more-pages signal. -/
theorem fetch_category_topics_c7_witness :
    fetch_category_topics (fun _ => some ⟨[], true⟩) none 1 = some []
    ∧ fetch_category_topics (fun _ => some ⟨[5, 6], false⟩) (some 1) 1 = some [5]
    ∧ fetch_category_topics (fun _ => some ⟨[5, 6], false⟩) none 1 = some [5, 6] := by
  refine ⟨(fetch_category_topics_c7 _).1 none 1 true (by decide) rfl, ?_, ?_⟩
  · have h := ((fetch_category_topics_c7 (fun _ => some ⟨[5, 6], false⟩)).2.1
      1 1 [5, 6] (by decide) (by decide)).1
    simpa using h
  · exact (fetch_category_topics_c7 _).2.2 1 [5, 6] (by decide) (by decide) rfl

/-- The `while missing` chunking loop of `fetch_topic`
(fetch-magicians.py, lines 119-126): the head batch is `missing[:20]`,
the loop continues on `missing[20:]`; the fuel is the list length, which
bounds the iteration count since every step consumes at least one id. -/
def chunkGo : Nat → List Nat → List (List Nat)
  | 0, _ => []
  | _ + 1, [] => []
  | fuel + 1, p :: rest => ((p :: rest).take 20) :: chunkGo fuel ((p :: rest).drop 20)

/-- The follow-up post requests issued by `fetch_topic`
(fetch-magicians.py, lines 113-123): the stream ids not among the
already-loaded post ids, in stream order, cut into batches of 20; each
inner list is the `post_ids[]` parameter list of one request. -/
def fetchTopicRequests (stream loaded : List Nat) : List (List Nat) :=
  let missing := stream.filter (fun pid => !(loaded.contains pid))
  chunkGo missing.length missing

lemma chunkGo_spec :
    ∀ (fuel : Nat) (l : List Nat), l.length ≤ fuel →
      (chunkGo fuel l).flatten = l
      ∧ (chunkGo fuel l).all (fun c => decide (c.length ≤ 20)) = true := by
  intro fuel
  induction fuel with
  | zero =>
      intro l hl
      have : l = [] := List.eq_nil_of_length_eq_zero (by omega)
      subst this
      exact ⟨rfl, rfl⟩
  | succ f ih =>
      intro l hl
      cases l with
      | nil => exact ⟨rfl, rfl⟩
      | cons p rest =>
          have hdrop : ((p :: rest).drop 20).length ≤ f := by
            simp only [List.length_drop, List.length_cons] at *
            omega
          obtain ⟨hj, ha⟩ := ih ((p :: rest).drop 20) hdrop
          constructor
          · simp only [chunkGo, List.flatten_cons, hj, List.take_append_drop]
          · simp only [chunkGo, List.all_cons, ha, Bool.and_true]
            simp [List.length_take]

/-- C8: the follow-up requests of `fetch_topic` cover, in order, exactly
the stream ids that are not among the already-loaded post ids, every
request carries at most 20 ids, and for a stream of 25 ids with the
first 20 pre-loaded there is exactly one follow-up request holding
precisely the 5 missing ids. -/
theorem fetch_topic_c8_requests :
    (∀ stream loaded : List Nat,
        (fetchTopicRequests stream loaded).flatten
          = stream.filter (fun pid => !(loaded.contains pid))
        ∧ (fetchTopicRequests stream loaded).all (fun c => decide (c.length ≤ 20)) = true)
    ∧ fetchTopicRequests (List.range' 1 25) (List.range' 1 20) = [[21, 22, 23, 24, 25]] := by
  refine ⟨fun stream loaded => chunkGo_spec _ _ (le_refl _), by decide⟩
